import Mathlib

/-!
Shallow embedding of the LRU cache in `src/lib.rs` (the `Cache` type and its
`LRUCache` implementation: `initialize`, `get`, `set`).

Modelling choices:
* `FnvHashMap<K, (V, u32)>` is modelled as an association list with unique
  keys (`insert` is only ever called on an absent key, so appending keeps the
  keys unique; `remove`/lookup act on the first matching key, which under
  uniqueness coincides with the hash map's behaviour).  No code path iterates
  the map, so iteration order never matters.
* `VecDeque<(u32, K)>` is modelled as a `List (Nat × K)`; `pop_front` is
  pattern matching on the head, `push_back` is append, `remove(idx)` and the
  `idx == 0` `pop_front` special case are both `List.eraseIdx`.
* `binary_search_by` is modelled by the standard-library slice binary-search
  loop (left/right bisection returning `some mid` on an exact stamp match) on
  the logical contents of the deque.  The source's comparator looks only at
  the stamp, so the search runs over the list of stamps.  When several
  entries carry the same stamp, `binary_search` is documented to return any
  matching index; in every concrete state evaluated below the deque is a
  single contiguous slice, where the real implementation runs exactly this
  loop.
* `u32`/`u16`/`usize` are modelled as `Nat`; no claim exercises wrap-around,
  and overflow of the generation counter is an arithmetic-overflow program
  error in the source, not defined behaviour.
* `pop_front().unwrap()` on an empty deque panics, so `set` returns
  `Option (Cache K V)`, `none` meaning the panic.
-/

section LRU

variable {K V : Type} [DecidableEq K]

/-- A cache entry of the map: key, value, recency stamp (Rust: `K ↦ (V, u32)`). -/
abbrev Entry (K V : Type) := K × V × Nat

/-- The cache state: generation counter `g`, capacity `max`, the item map,
and the ordered recency index (Rust struct `Cache`). -/
structure Cache (K V : Type) where
  g : Nat
  max : Nat
  items : List (Entry K V)
  recency_buckets : List (Nat × K)
  deriving Repr, DecidableEq

/-- Rust `HashMap::get` on the item map: first entry with the given key. -/
def lookupItem : List (Entry K V) → K → Option (V × Nat)
  | [], _ => none
  | (k', v, r) :: rest, k => if k' = k then some (v, r) else lookupItem rest k

/-- Rust `HashMap::remove`: drop the (unique) entry with the given key. -/
def removeKey : List (Entry K V) → K → List (Entry K V)
  | [], _ => []
  | (k', v, r) :: rest, k => if k' = k then rest else (k', v, r) :: removeKey rest k

/-- Rust `entry.1 = recency` through `get_mut`: update the stamp of the entry for `k`. -/
def updateStamp : List (Entry K V) → K → Nat → List (Entry K V)
  | [], _, _ => []
  | (k', v, r) :: rest, k, n =>
      if k' = k then (k', v, n) :: rest else (k', v, r) :: updateStamp rest k n

/-- The standard-library binary-search loop over the deque's stamps
(`slice::binary_search_by` with comparator `g.cmp(&entry.1)`): bisect
`[left, right)`, returning `some mid` on an exact match, `none` for `Err`.
The fuel argument only drives structural recursion; `right - left` shrinks
every iteration, so `stamps.length + 1` units never run out. -/
def bsearchLoop (stamps : List Nat) (target : Nat) : Nat → Nat → Nat → Option Nat
  | 0, _, _ => none
  | fuel + 1, left, right =>
    if left < right then
      let mid := left + (right - left) / 2
      match stamps.get? mid with
      | none => none
      | some s =>
        if s < target then bsearchLoop stamps target fuel (mid + 1) right
        else if target < s then bsearchLoop stamps target fuel left mid
        else some mid
    else none

/-- Rust `recency_buckets.binary_search_by(|(g, _k)| g.cmp(&entry.1))`. -/
def binarySearchStamp (buckets : List (Nat × K)) (target : Nat) : Option Nat :=
  bsearchLoop (buckets.map Prod.fst) target (buckets.length + 1) 0 buckets.length

/-- Rust `Cache::initialize(max)`: generation 0, empty map, empty recency index.
(The Rust name is a reserved word in this development, hence `initCache`.) -/
def initCache (max : Nat) : Cache K V :=
  { g := 0, max := max, items := [], recency_buckets := [] }

/-- Rust `Cache::get(k)`: on a hit, remove the bucket entry found by binary search
on the key's current stamp (index 0 via `pop_front`, otherwise `remove(idx)`,
both `eraseIdx`), push `(g+1, k)` at the back, set the entry's stamp and `g`
to `g+1`, and return the value; on a miss return `None` and change nothing. -/
def Cache.get (c : Cache K V) (k : K) : Option V × Cache K V :=
  match lookupItem c.items k with
  | some (v, r) =>
    let recency := c.g + 1
    let buckets :=
      match binarySearchStamp c.recency_buckets r with
      | some idx => c.recency_buckets.eraseIdx idx
      | none => c.recency_buckets
    (some v,
      { c with
          g := recency
          items := updateStamp c.items k recency
          recency_buckets := buckets ++ [(recency, k)] })
  | none => (none, c)

/-- Rust `Cache::set(k, v)`: no-op if the key is present; otherwise, when
`items.len() + 1 > max`, pop the front of the recency index and remove that
key from the map (`none` models the `unwrap` panic on an empty index), then
push `(g, k)` at the back and insert `(v, g)` into the map. -/
def Cache.set (c : Cache K V) (k : K) (v : V) : Option (Cache K V) :=
  if (lookupItem c.items k).isSome then
    some c
  else
    let evicted? :=
      if c.items.length + 1 > c.max then
        match c.recency_buckets with
        | [] => none
        | (_, ek) :: rest => some (removeKey c.items ek, rest)
      else some (c.items, c.recency_buckets)
    evicted?.map fun p =>
      { c with
          items := p.1 ++ [(k, v, c.g)]
          recency_buckets := p.2 ++ [(c.g, k)] }

/-- One cache operation of the public API. -/
inductive Op (K V : Type) where
  | get (k : K)
  | set (k : K) (v : V)
  deriving Repr, DecidableEq

/-- Run one operation; `none` means the program panicked. -/
def step (c : Cache K V) : Op K V → Option (Cache K V)
  | .get k => some (c.get k).2
  | .set k v => c.set k v

/-- Run a sequence of operations, propagating a panic. -/
def run (ops : List (Op K V)) (c : Cache K V) : Option (Cache K V) :=
  match ops with
  | [] => some c
  | op :: rest => (step c op).bind (run rest)

/-- All recency stamps stored in the map and in the recency index are bounded
by the current generation counter. -/
def stampsBounded (c : Cache K V) : Prop :=
  (∀ e ∈ c.items, e.2.2 ≤ c.g) ∧ (∀ b ∈ c.recency_buckets, b.1 ≤ c.g)

instance (c : Cache K V) : Decidable (stampsBounded c) := by
  unfold stampsBounded; infer_instance

/-- Whenever the map is non-empty, so is the recency index (what makes the
eviction branch's `unwrap` safe). -/
def nonemptyInv (c : Cache K V) : Prop := c.items ≠ [] → c.recency_buckets ≠ []

/-- Sample reachable state, the result of `set (initCache 3) 1 "a"`. -/
def sampleCache : Cache Nat String :=
  { g := 0, max := 3, items := [(1, "a", 0)], recency_buckets := [(0, 1)] }

/-- Sample reachable state, the result of `get sampleCache 1`. -/
def sampleCache2 : Cache Nat String :=
  { g := 1, max := 3, items := [(1, "a", 1)], recency_buckets := [(1, 1)] }

end LRU

section Lemmas

variable {K V : Type} [DecidableEq K]

/-- Appending a fresh entry makes it the one found by lookup. -/
theorem lookupItem_append_of_none (l : List (Entry K V)) (k : K) (v : V) (r : Nat)
    (h : lookupItem l k = none) : lookupItem (l ++ [(k, v, r)]) k = some (v, r) := by
  induction l with
  | nil => simp [lookupItem]
  | cons e rest ih =>
    obtain ⟨k', v', r'⟩ := e
    by_cases hk : k' = k
    · simp [lookupItem, hk] at h
    · simp only [lookupItem, if_neg hk] at h
      simpa [lookupItem, hk] using ih h

/-- Removing some key cannot make an absent key present. -/
theorem lookupItem_removeKey_of_none (l : List (Entry K V)) (ek k : K)
    (h : lookupItem l k = none) : lookupItem (removeKey l ek) k = none := by
  induction l with
  | nil => simp [removeKey, lookupItem]
  | cons e rest ih =>
    obtain ⟨k', v', r'⟩ := e
    by_cases hk : k' = k
    · simp [lookupItem, hk] at h
    · simp only [lookupItem, if_neg hk] at h
      by_cases he : k' = ek
      · simpa [removeKey, he] using h
      · simpa [removeKey, he, lookupItem, hk] using ih h

/-- Refreshing a present key's stamp keeps its value and sets the new stamp. -/
theorem lookupItem_updateStamp (l : List (Entry K V)) (k : K) (n : Nat) (v : V) (r : Nat)
    (h : lookupItem l k = some (v, r)) :
    lookupItem (updateStamp l k n) k = some (v, n) := by
  induction l with
  | nil => simp [lookupItem] at h
  | cons e rest ih =>
    obtain ⟨k', v', r'⟩ := e
    by_cases hk : k' = k
    · simp only [lookupItem, if_pos hk] at h
      obtain ⟨hv, hr⟩ := Prod.mk.injEq _ _ _ _ ▸ Option.some.inj h
      simp [updateStamp, hk, lookupItem, hv]
    · simp only [lookupItem, if_neg hk] at h
      simpa [updateStamp, hk, lookupItem] using ih h

/-- Every entry of `updateStamp l k n` carries stamp `n` or comes from `l`. -/
theorem stamp_of_mem_updateStamp (l : List (Entry K V)) (k : K) (n : Nat) (e : Entry K V)
    (h : e ∈ updateStamp l k n) : e.2.2 = n ∨ e ∈ l := by
  induction l with
  | nil => simp [updateStamp] at h
  | cons hd rest ih =>
    obtain ⟨k', v', r'⟩ := hd
    by_cases hk : k' = k
    · simp only [updateStamp, if_pos hk, List.mem_cons] at h
      rcases h with h | h
      · exact Or.inl (by rw [h])
      · exact Or.inr (List.mem_cons_of_mem _ h)
    · simp only [updateStamp, if_neg hk, List.mem_cons] at h
      rcases h with h | h
      · exact Or.inr (by simp [h])
      · rcases ih h with h1 | h1
        · exact Or.inl h1
        · exact Or.inr (by simp [h1])

/-- Entries surviving a key removal were entries before. -/
theorem mem_of_mem_removeKey (l : List (Entry K V)) (k : K) (e : Entry K V)
    (h : e ∈ removeKey l k) : e ∈ l := by
  induction l with
  | nil => simp [removeKey] at h
  | cons hd rest ih =>
    obtain ⟨k', v', r'⟩ := hd
    by_cases hk : k' = k
    · simp only [removeKey, if_pos hk] at h
      exact List.mem_cons_of_mem _ h
    · simp only [removeKey, if_neg hk, List.mem_cons] at h
      rcases h with h | h
      · exact h ▸ List.mem_cons_self _ _
      · exact List.mem_cons_of_mem _ (ih h)

/-- Equation for `get` on a hit. -/
theorem get_hit_eq (c : Cache K V) (k : K) (v : V) (r : Nat)
    (h : lookupItem c.items k = some (v, r)) :
    c.get k = (some v,
      { c with
          g := c.g + 1
          items := updateStamp c.items k (c.g + 1)
          recency_buckets :=
            (match binarySearchStamp c.recency_buckets r with
              | some idx => c.recency_buckets.eraseIdx idx
              | none => c.recency_buckets) ++ [(c.g + 1, k)] }) := by
  simp [Cache.get, h]

/-- Equation for `get` on a miss. -/
theorem get_miss_eq (c : Cache K V) (k : K) (h : lookupItem c.items k = none) :
    c.get k = (none, c) := by
  simp [Cache.get, h]

/-- Whatever the binary search removes, the surviving bucket entries come from
the original index. -/
theorem mem_get_buckets (c : Cache K V) (r : Nat) (b : Nat × K)
    (hb : b ∈ (match binarySearchStamp c.recency_buckets r with
                | some idx => c.recency_buckets.eraseIdx idx
                | none => c.recency_buckets)) : b ∈ c.recency_buckets := by
  rcases hs : binarySearchStamp c.recency_buckets r with _ | idx
  · rwa [hs] at hb
  · rw [hs] at hb
    exact List.mem_of_mem_eraseIdx hb

/-- Case analysis for a successful `set`: either the key was present and the
state is unchanged, or the new entry is appended with stamp `c.g` to a
possibly eviction-reduced map and index, leaving `g` and `max` alone. -/
theorem set_some_cases (c : Cache K V) (k : K) (v : V) (c' : Cache K V)
    (hs : c.set k v = some c') :
    c' = c ∨
      ∃ base bbase, (∀ e ∈ base, e ∈ c.items) ∧ (∀ b ∈ bbase, b ∈ c.recency_buckets) ∧
        c' = { c with
                items := base ++ [(k, v, c.g)]
                recency_buckets := bbase ++ [(c.g, k)] } := by
  by_cases hp : (lookupItem c.items k).isSome = true
  · left
    simp only [Cache.set, hp, if_true, Option.some.injEq] at hs
    exact hs.symm
  · right
    have hp' : (lookupItem c.items k).isSome = false := by simpa using hp
    simp only [Cache.set, hp', Bool.false_eq_true, if_false] at hs
    by_cases hc : c.items.length + 1 > c.max
    · rcases hb : c.recency_buckets with _ | ⟨⟨s, ek⟩, rest⟩
      · rw [hb] at hs
        simp [hc] at hs
      · rw [hb] at hs
        simp only [hc, if_true, Option.map_some', Option.some.injEq] at hs
        refine ⟨removeKey c.items ek, rest, ?_, ?_, hs.symm⟩
        · exact fun e he => mem_of_mem_removeKey _ _ _ he
        · exact fun b hbm => hb ▸ List.mem_cons_of_mem _ hbm
    · simp only [hc, if_false, Option.map_some', Option.some.injEq] at hs
      exact ⟨c.items, c.recency_buckets, fun e he => he, fun b hbm => hbm, hs.symm⟩

/-- One step never decreases `g` and keeps every stored stamp bounded by `g`. -/
theorem step_g_mono_bounded (c c' : Cache K V) (op : Op K V) (h : step c op = some c') :
    c.g ≤ c'.g ∧ (stampsBounded c → stampsBounded c') := by
  cases op with
  | get k =>
    simp only [step, Option.some.injEq] at h
    rcases hlk : lookupItem c.items k with _ | ⟨v, r⟩
    · rw [get_miss_eq c k hlk] at h
      rw [← h]
      exact ⟨le_refl _, fun hb => hb⟩
    · rw [get_hit_eq c k v r hlk] at h
      rw [← h]
      refine ⟨Nat.le_succ _, fun hbd => ⟨?_, ?_⟩⟩
      · intro e he
        rcases stamp_of_mem_updateStamp c.items k (c.g + 1) e he with h1 | h1
        · exact le_of_eq h1
        · exact Nat.le_succ_of_le (hbd.1 e h1)
      · intro b hbm
        rcases List.mem_append.mp hbm with h1 | h1
        · exact Nat.le_succ_of_le (hbd.2 b (mem_get_buckets c r b h1))
        · rw [List.mem_singleton] at h1
          rw [h1]
  | set k v =>
    simp only [step] at h
    rcases set_some_cases c k v c' h with h1 | ⟨base, bbase, hbi, hbb, h1⟩
    · rw [h1]
      exact ⟨le_refl _, fun hb => hb⟩
    · subst h1
      refine ⟨le_refl _, fun hbd => ⟨?_, ?_⟩⟩
      · intro e he
        rcases List.mem_append.mp he with h2 | h2
        · exact hbd.1 e (hbi e h2)
        · rw [List.mem_singleton] at h2
          rw [h2]
      · intro b hbm
        rcases List.mem_append.mp hbm with h2 | h2
        · exact hbd.2 b (hbb b h2)
        · rw [List.mem_singleton] at h2
          rw [h2]

/-- One step keeps `max` and preserves the non-empty-index invariant. -/
theorem step_structure (c c' : Cache K V) (op : Op K V) (h : step c op = some c') :
    c'.max = c.max ∧ (nonemptyInv c → nonemptyInv c') := by
  cases op with
  | get k =>
    simp only [step, Option.some.injEq] at h
    rcases hlk : lookupItem c.items k with _ | ⟨v, r⟩
    · rw [get_miss_eq c k hlk] at h
      rw [← h]
      exact ⟨rfl, fun hi => hi⟩
    · rw [get_hit_eq c k v r hlk] at h
      rw [← h]
      exact ⟨rfl, fun _ _ => by simp⟩
  | set k v =>
    simp only [step] at h
    rcases set_some_cases c k v c' h with h1 | ⟨base, bbase, hbi, hbb, h1⟩
    · rw [h1]
      exact ⟨rfl, fun hi => hi⟩
    · subst h1
      exact ⟨rfl, fun _ _ => by simp⟩

/-- Running a sequence keeps `max` and preserves the non-empty-index invariant. -/
theorem run_structure (ops : List (Op K V)) (c c' : Cache K V) (h : run ops c = some c') :
    c'.max = c.max ∧ (nonemptyInv c → nonemptyInv c') := by
  induction ops generalizing c with
  | nil =>
    simp only [run, Option.some.injEq] at h
    rw [← h]
    exact ⟨rfl, fun hi => hi⟩
  | cons op rest ih =>
    simp only [run] at h
    rcases hst : step c op with _ | c1
    · rw [hst] at h
      simp at h
    · rw [hst] at h
      obtain ⟨h1, h2⟩ := step_structure c c1 op hst
      obtain ⟨h3, h4⟩ := ih c1 h
      exact ⟨h3.trans h1, fun hi => h4 (h2 hi)⟩

end Lemmas

section Claims

variable {K V : Type} [DecidableEq K]

/-- C1: the claim says an eviction triggered by `set` on an absent key removes
a present key whose recency stamp is strictly smallest among present keys.  On
capacity 2, after `set(1,"a"); set(2,"b"); get(1)` both keys are present, key 1
carrying stamp 1 and key 2 carrying stamp 0, with the map at capacity; yet
`set(3,"c")` evicts key 1 (the most recently used key) while key 2, whose
stamp 0 is strictly smaller, stays: the binary search inside `get` removed
key 2's index entry instead of key 1's. -/
theorem eviction_victim_not_minimal_stamp :
    ((run [Op.set 1 "a", Op.set 2 "b", Op.get 1] (initCache 2 : Cache Nat String)).map
        (fun c => (lookupItem c.items 1, lookupItem c.items 2, c.items.length, c.max))
      = some (some ("a", 1), some ("b", 0), 2, 2))
    ∧ ((run [Op.set 1 "a", Op.set 2 "b", Op.get 1, Op.set 3 "c"]
          (initCache 2 : Cache Nat String)).map
        (fun c => (lookupItem c.items 1, lookupItem c.items 2))
      = some (none, some ("b", 0))) := by
  exact ⟨by decide, by decide⟩

/-- C2: the claim says the number of present keys never exceeds `max`.  On
capacity 2, `set(1,"a"); set(2,"b"); get(1); set(3,"c"); set(4,"d")` leaves
the map with the three keys 2, 3, 4: the final eviction popped a stale index
entry for the already-evicted key 1, so `items.remove` removed nothing. -/
theorem capacity_invariant_violated :
    (run [Op.set 1 "a", Op.set 2 "b", Op.get 1, Op.set 3 "c", Op.set 4 "d"]
        (initCache 2 : Cache Nat String)).map
      (fun c => (c.items.map Prod.fst, c.items.length, c.max))
      = some ([2, 3, 4], 3, 2) := by
  decide

/-- C3: the claim says the recency index is always sorted and contains exactly
one entry per present key, with the key's current stamp.  On capacity 3, after
`set(1,"a"); set(2,"b"); get(1)` the index is `[(0,1), (1,1)]`: key 2 is
present (with stamp 0) but has no index entry, while key 1 has two — the
binary search in `get(1)` matched key 2's duplicate stamp 0 and removed key
2's entry instead of key 1's. -/
theorem recency_index_missing_present_key :
    (run [Op.set 1 "a", Op.set 2 "b", Op.get 1] (initCache 3 : Cache Nat String)).map
      (fun c => (lookupItem c.items 2, c.recency_buckets,
        (c.recency_buckets.filter (fun b => b.2 = 2)).length,
        (c.recency_buckets.filter (fun b => b.2 = 1)).length))
      = some (some ("b", 0), [(0, 1), (1, 1)], 0, 2) := by
  decide

/-- C4: the claim says that on capacity 3 the sequence `set(1,"a"); set(2,"b");
set(3,"c"); get(1); get(2); set(4,"d")` leaves get(3) not-found, get(1) = "a",
get(2) = "b" and 3 present keys.  The code instead leaves key 3 present
(get(3) returns "c") and key 1 evicted (get(1) returns not-found): the two
`get`s removed the index entries of keys 2 and 3 (duplicate stamp 0) instead
of their own, so the final eviction popped `(0,1)` and removed key 1. -/
theorem scenario_cap3_evicts_wrong_key :
    (run [Op.set 1 "a", Op.set 2 "b", Op.set 3 "c", Op.get 1, Op.get 2, Op.set 4 "d"]
        (initCache 3 : Cache Nat String)).map
      (fun c => ((c.get 3).1, (c.get 1).1, (c.get 2).1, c.items.length))
      = some (some "c", none, some "b", 3) := by
  decide

/-- C5 (counterexample): the claim says `set(k, v)` immediately followed by
`get(k)` returns `v` in every reachable state.  In the reachable state after
`set(1,"a")`, executing `set(1,"b")` is a silent no-op, so the following
`get(1)` returns `"a"`, not `"b"`. -/
theorem set_present_get_returns_old_value :
    ((run [Op.set 1 "a", Op.set 1 "b"] (initCache 3 : Cache Nat String)).map
        (fun c => (c.get 1).1) = some (some "a"))
    ∧ ("a" : String) ≠ "b" := by
  exact ⟨by decide, by decide⟩

/-- C5 (amended): if `k` is absent, then `set(k, v)` immediately followed by
`get(k)` returns `v` (when the key is already present, `set` is a no-op and
`get` keeps returning the stored value). -/
theorem set_absent_then_get_returns_value (c : Cache K V) (k : K) (v : V)
    (h : lookupItem c.items k = none) (c' : Cache K V) (hs : c.set k v = some c') :
    (c'.get k).1 = some v := by
  have hp' : (lookupItem c.items k).isSome = false := by rw [h]; rfl
  simp only [Cache.set, hp', Bool.false_eq_true, if_false] at hs
  by_cases hc : c.items.length + 1 > c.max
  · rcases hb : c.recency_buckets with _ | ⟨⟨s, ek⟩, rest⟩
    · rw [hb] at hs
      simp [hc] at hs
    · rw [hb] at hs
      simp only [hc, if_true, Option.map_some', Option.some.injEq] at hs
      have hl : lookupItem c'.items k = some (v, c.g) := by
        rw [← hs]
        exact lookupItem_append_of_none _ _ _ _ (lookupItem_removeKey_of_none _ _ _ h)
      simp [Cache.get, hl]
  · simp only [hc, if_false, Option.map_some', Option.some.injEq] at hs
    have hl : lookupItem c'.items k = some (v, c.g) := by
      rw [← hs]
      exact lookupItem_append_of_none _ _ _ _ h
    simp [Cache.get, hl]

/-- C5 (witness): the amended round-trip at the empty cache of capacity 3 with
key 1 and value "a". -/
theorem set_absent_then_get_returns_value_witness :
    lookupItem (initCache 3 : Cache Nat String).items 1 = none
    ∧ (initCache 3 : Cache Nat String).set 1 "a" = some sampleCache
    ∧ (sampleCache.get 1).1 = some "a" :=
  ⟨rfl, by decide, set_absent_then_get_returns_value (initCache 3) 1 "a" rfl sampleCache (by decide)⟩

/-- C6: for every cache state and key `k`, if `k` is present with stored value
`v`, `get(k)` returns `v`, sets `k`'s recency stamp to `g+1` and advances the
generation counter to `g+1`; if `k` is absent, `get(k)` returns not-found and
leaves the whole state (in particular `g`) unchanged. -/
theorem get_hit_miss_semantics (c : Cache K V) (k : K) :
    (∀ v r, lookupItem c.items k = some (v, r) →
      (c.get k).1 = some v ∧ (c.get k).2.g = c.g + 1 ∧
        lookupItem (c.get k).2.items k = some (v, c.g + 1))
    ∧ (lookupItem c.items k = none → c.get k = (none, c)) := by
  constructor
  · intro v r h
    rw [get_hit_eq c k v r h]
    exact ⟨rfl, rfl, lookupItem_updateStamp c.items k (c.g + 1) v r h⟩
  · intro h
    exact get_miss_eq c k h

/-- C6 (witness): both branches at the one-entry cache `sampleCache`: the hit
on key 1 and the miss on key 2. -/
theorem get_hit_miss_semantics_witness :
    (lookupItem sampleCache.items 1 = some ("a", 0)
      ∧ ((sampleCache.get 1).1 = some "a" ∧ (sampleCache.get 1).2.g = sampleCache.g + 1
          ∧ lookupItem (sampleCache.get 1).2.items 1 = some ("a", sampleCache.g + 1)))
    ∧ (lookupItem sampleCache.items 2 = none ∧ sampleCache.get 2 = (none, sampleCache)) :=
  ⟨⟨by decide, (get_hit_miss_semantics sampleCache 1).1 "a" 0 (by decide)⟩,
   ⟨by decide, (get_hit_miss_semantics sampleCache 2).2 (by decide)⟩⟩

/-- C7: `set` on an already-present key leaves the entire cache state
unchanged — the stored value is not replaced, the recency stamp is not
refreshed, `g` is untouched and nothing is evicted. -/
theorem set_present_is_noop (c : Cache K V) (k : K) (v : V)
    (h : (lookupItem c.items k).isSome = true) : c.set k v = some c := by
  simp [Cache.set, h]

/-- C7 (witness): re-setting the present key 1 of `sampleCache` with a new
value "z" changes nothing. -/
theorem set_present_is_noop_witness :
    (lookupItem sampleCache.items 1).isSome = true
    ∧ sampleCache.set 1 "z" = some sampleCache :=
  ⟨by decide, set_present_is_noop sampleCache 1 "z" (by decide)⟩

/-- C8: along every operation sequence the generation counter never decreases,
and every recency stamp assigned stays bounded by the generation counter right
after the assigning operation: from any state whose stored stamps are bounded
by `g` (as the initial cache's trivially are), every run ends — at every
intermediate state, by instantiating `ops` with each prefix — with `g` at
least as large and all stored stamps still bounded by `g`. -/
theorem g_monotone_stamps_bounded (ops : List (Op K V)) (c c' : Cache K V)
    (h : run ops c = some c') : c.g ≤ c'.g ∧ (stampsBounded c → stampsBounded c') := by
  induction ops generalizing c with
  | nil =>
    simp only [run, Option.some.injEq] at h
    rw [← h]
    exact ⟨le_refl _, fun hb => hb⟩
  | cons op rest ih =>
    simp only [run] at h
    rcases hst : step c op with _ | c1
    · rw [hst] at h
      simp at h
    · rw [hst] at h
      obtain ⟨h1, h2⟩ := step_g_mono_bounded c c1 op hst
      obtain ⟨h3, h4⟩ := ih c1 h
      exact ⟨h1.trans h3, fun hb => h4 (h2 hb)⟩

/-- C8 (witness): one `get` on `sampleCache` raises `g` from 0 to 1 and keeps
every stored stamp bounded by `g`. -/
theorem g_monotone_stamps_bounded_witness :
    run [Op.get 1] sampleCache = some sampleCache2
    ∧ sampleCache.g ≤ sampleCache2.g ∧ stampsBounded sampleCache2 :=
  have h : run [Op.get 1] sampleCache = some sampleCache2 := by decide
  ⟨h, (g_monotone_stamps_bounded [Op.get 1] sampleCache sampleCache2 h).1,
    (g_monotone_stamps_bounded [Op.get 1] sampleCache sampleCache2 h).2 (by decide)⟩

/-- C9: the claim says that after a successful `get(k)`, `k` is not evicted
while a present key untouched since then remains, as long as evictions since
the `get` do not outnumber the untouched keys.  On capacity 2, `get(1)`
succeeds (returning "a") in the state after `set(1,"a"); set(2,"b")`; key 2 is
never accessed again, and the single following `set(3,"c")` causes one
eviction against one untouched key — yet it evicts key 1 while key 2 is still
present. -/
theorem get_refresh_fails_to_protect :
    ((run [Op.set 1 "a", Op.set 2 "b"] (initCache 2 : Cache Nat String)).map
        (fun c => (c.get 1).1) = some (some "a"))
    ∧ ((run [Op.set 1 "a", Op.set 2 "b", Op.get 1, Op.set 3 "c"]
          (initCache 2 : Cache Nat String)).map
        (fun c => ((lookupItem c.items 1).isSome, (lookupItem c.items 2).isSome))
      = some (false, true)) := by
  exact ⟨by decide, by decide⟩

/-- C10: for every cache constructed with `max ≥ 1`, the eviction branch of
`set` never panics in any reachable state (the recency index is non-empty
whenever eviction triggers, so `pop_front().unwrap()` succeeds), while on a
cache constructed with `max = 0` the very first `set` panics. -/
theorem set_panic_behaviour (max : Nat) (ops : List (Op K V)) (c : Cache K V)
    (k : K) (v : V) (hmax : 1 ≤ max) (h : run ops (initCache max) = some c) :
    (c.set k v).isSome = true ∧ (initCache 0 : Cache K V).set k v = none := by
  constructor
  · obtain ⟨hm, hinv⟩ := run_structure ops (initCache max) c h
    have hin : nonemptyInv c := hinv (fun hne => absurd rfl hne)
    by_cases hp : (lookupItem c.items k).isSome = true
    · simp [Cache.set, hp]
    · have hp' : (lookupItem c.items k).isSome = false := by simpa using hp
      by_cases hcap : c.items.length + 1 > c.max
      · have hmc : c.max = max := by simpa [initCache] using hm
        have hlen : 1 ≤ c.items.length := by omega
        have hne : c.items ≠ [] := by
          intro hnil
          rw [hnil] at hlen
          simp at hlen
        rcases hb : c.recency_buckets with _ | ⟨⟨s, ek⟩, rest⟩
        · exact absurd hb (hin hne)
        · simp [Cache.set, hp', hcap, hb]
      · simp [Cache.set, hp', hcap]
  · simp [Cache.set, initCache, lookupItem]

/-- C10 (witness): the empty run on a capacity-1 cache, where the next `set`
succeeds, against the capacity-0 cache whose first `set` panics. -/
theorem set_panic_behaviour_witness :
    (1 ≤ 1 ∧ run ([] : List (Op Nat String)) (initCache 1) = some (initCache 1))
    ∧ (((initCache 1 : Cache Nat String).set 5 "e").isSome = true
        ∧ (initCache 0 : Cache Nat String).set 5 "e" = none) :=
  ⟨⟨Nat.le_refl 1, rfl⟩,
    set_panic_behaviour 1 [] (initCache 1) 5 "e" (Nat.le_refl 1) rfl⟩

end Claims
